import Mathlib

/-!
Shallow embedding of the watermark-remover core (box-blur filter and video
frame pipeline) from the two processor classes (`ImageProcessor`,
`VideoProcessor`), together with proofs of the specification's claims.

Pixel buffers (`Uint8ClampedArray`) are embedded as `List Nat` of channel
samples; all coordinates are `Int` (the data model declares `Rectangle`
fields integer, and JavaScript numbers holding integers in these ranges are
exact).  Mutating writes into the target buffer become `List.set`; an
out-of-range `List.set` is a no-op exactly like an out-of-range write into
a JavaScript typed array.  Buffers are immutable values here, so "the
filter never mutates its source" is expressed by characterizing every
output sample as a function of the original source samples alone.
-/

namespace WatermarkRemover

/-- An `ImageData`: width, height, plus the flat RGBA channel-sample list
(`data`), row-major, 4 samples per pixel. -/
structure ImageData where
  width : Nat
  height : Nat
  data : List Nat
deriving DecidableEq, Repr

/-- A watermark rectangle, integer fields per the data model. -/
structure Region where
  x : Int
  y : Int
  width : Int
  height : Int
deriving DecidableEq, Repr

/-- `calculateBlurRadius` (identical in both processors):
`w = max(1, regionWidth)`, `h = max(1, regionHeight)`, `minDim = min w h`,
`radius = floor(minDim * 0.05)` clamped to `[2, 10]`.
For an integer `minDim`, the IEEE-754 double product `minDim * 0.05` rounds
to a value whose floor equals `minDim / 20` (at every clamping-relevant
magnitude the relative error of the double `0.05` stays far below half an
ulp of the exact quotient's integer neighbors), so the integer floor
`minDim / 20` is the faithful embedding of `Math.floor(minDim * 0.05)`. -/
def calculateBlurRadius (regionWidth regionHeight : Int) : Int :=
  let w := max 1 regionWidth
  let h := max 1 regionHeight
  let minDim := min w h
  let radius := minDim / 20
  min 10 (max 2 radius)

/-- The kernel offsets `-radius, …, radius` (inner/outer loop bounds of
`applyBlurEffect`). -/
def kernelOffsets (radius : Int) : List Int :=
  (List.range (2 * radius + 1).toNat).map (fun (i : Nat) => (i : Int) - radius)

/-- The in-bounds check `sampleX >= 0 && sampleX < imageWidth && sampleY >= 0
&& sampleY < imageHeight` on a kernel sample. -/
def sampleInBounds (imageWidth imageHeight : Nat) (sampleX sampleY : Int) : Prop :=
  0 ≤ sampleX ∧ sampleX < imageWidth ∧ 0 ≤ sampleY ∧ sampleY < imageHeight

instance (W H : Nat) (sx sy : Int) : Decidable (sampleInBounds W H sx sy) := by
  unfold sampleInBounds; infer_instance

/-- Base indices `(sampleY * imageWidth + sampleX) * 4` of the in-bounds
kernel samples around pixel `(x, y)`, in the loop's `ky`-outer, `kx`-inner
order.  Its length is the loop's `count`. -/
def sampleBases (imageWidth imageHeight : Nat) (radius x y : Int) : List Nat :=
  (kernelOffsets radius).flatMap (fun ky =>
    (kernelOffsets radius).filterMap (fun kx =>
      let sampleX := x + kx
      let sampleY := y + ky
      if sampleInBounds imageWidth imageHeight sampleX sampleY then
        some ((sampleY * imageWidth + sampleX).toNat * 4)
      else none))

/-- `r_sum`/`g_sum`/`b_sum`: the sum of channel `c` of the source over the
given sample base indices. -/
def channelSum (sourcePixels : List Nat) (bases : List Nat) (c : Nat) : Nat :=
  (bases.map (fun base => sourcePixels.getD (base + c) 0)).sum

/-- Storing `sum / count` (exact JavaScript double division of two exact
integers) into a `Uint8ClampedArray` slot rounds to the nearest integer,
ties to even.  The double division is correctly rounded and `count ≤ 441`,
so every tie/side decision agrees with the exact rational `sum / count`;
the stored byte is the round-half-even of the exact quotient. -/
def roundHalfEven (sum count : Nat) : Nat :=
  let q := sum / count
  let r := sum % count
  if 2 * r < count then q
  else if count < 2 * r then q + 1
  else if q % 2 = 0 then q else q + 1

/-- The byte actually stored for an averaged channel (`Uint8ClampedArray`
additionally clamps to `[0, 255]`; the lower clamp is vacuous on `Nat`). -/
def storeByte (sum count : Nat) : Nat :=
  min 255 (roundHalfEven sum count)

/-- The body of `applyBlurEffect`'s per-pixel double loop: compute the sums
and the in-bounds count for pixel `(x, y)` and write the four channel slots
at `targetIdx = (y * imageWidth + x) * 4` into the target buffer.  When
`count > 0` the RGB slots receive the stored mean and the alpha slot a
verbatim copy of the source alpha; when `count = 0` all four slots receive
verbatim copies of the source. -/
def writePixel (sourcePixels : List Nat) (radius : Int) (imageWidth imageHeight : Nat)
    (targetPixels : List Nat) (p : Int × Int) : List Nat :=
  let x := p.1
  let y := p.2
  let bases := sampleBases imageWidth imageHeight radius x y
  let count := bases.length
  let targetIdx := (y * imageWidth + x).toNat * 4
  if 0 < count then
    ((((targetPixels.set targetIdx (storeByte (channelSum sourcePixels bases 0) count)).set
        (targetIdx + 1) (storeByte (channelSum sourcePixels bases 1) count)).set
        (targetIdx + 2) (storeByte (channelSum sourcePixels bases 2) count)).set
        (targetIdx + 3) (sourcePixels.getD (targetIdx + 3) 0))
  else
    ((((targetPixels.set targetIdx (sourcePixels.getD targetIdx 0)).set
        (targetIdx + 1) (sourcePixels.getD (targetIdx + 1) 0)).set
        (targetIdx + 2) (sourcePixels.getD (targetIdx + 2) 0)).set
        (targetIdx + 3) (sourcePixels.getD (targetIdx + 3) 0))

/-- The pixels `(x, y)` visited by `applyBlurEffect`'s loops, `y` outer from
`regionY` while `y < regionY + regionHeight`, `x` inner likewise. -/
def regionPixels (region : Region) : List (Int × Int) :=
  (List.range region.height.toNat).flatMap (fun (dy : Nat) =>
    (List.range region.width.toNat).map (fun (dx : Nat) =>
      (region.x + (dx : Int), region.y + (dy : Int))))

/-- `applyBlurEffect` (identical in both processors): iterate over the
region's pixels, writing each pixel's blurred channels into the target
buffer; all kernel reads come from `sourcePixels`. -/
def applyBlurEffect (targetPixels sourcePixels : List Nat) (region : Region)
    (radius : Int) (imageWidth imageHeight : Nat) : List Nat :=
  (regionPixels region).foldl (writePixel sourcePixels radius imageWidth imageHeight)
    targetPixels

/-- The region-validation test shared by `removeWatermark` and
`blurWatermark`: `x < 0 || y < 0 || x + width > imageWidth ||
y + height > imageHeight || width <= 0 || height <= 0`. -/
def invalidRegion (r : Region) (imageWidth imageHeight : Nat) : Bool :=
  decide (r.x < 0 ∨ r.y < 0 ∨ r.x + r.width > (imageWidth : Int) ∨
    r.y + r.height > (imageHeight : Int) ∨ r.width ≤ 0 ∨ r.height ≤ 0)

/-- `ImageProcessor.removeWatermark`: validate, throw on an invalid region,
otherwise copy the source bytes into a fresh buffer, blur the region
(reading from the original, writing into the copy) and return a fresh
`ImageData` of the same dimensions. -/
def removeWatermark (imageData : ImageData) (watermarkRegion : Region) :
    Except String ImageData :=
  if invalidRegion watermarkRegion imageData.width imageData.height then
    Except.error
      "Watermark region is invalid or outside image boundaries. Please make a valid selection."
  else
    let processedPixels := imageData.data
    Except.ok
      { width := imageData.width
        height := imageData.height
        data := applyBlurEffect processedPixels imageData.data watermarkRegion
          (calculateBlurRadius watermarkRegion.width watermarkRegion.height)
          imageData.width imageData.height }

/-- `VideoProcessor.blurWatermark`: validate, log and return the input frame
unchanged on an invalid region, otherwise blur exactly as the image path
does and return a fresh `ImageData`. -/
def blurWatermark (frameData : ImageData) (watermarkRegion : Region) : ImageData :=
  if invalidRegion watermarkRegion frameData.width frameData.height then
    frameData
  else
    { width := frameData.width
      height := frameData.height
      data := applyBlurEffect frameData.data frameData.data watermarkRegion
        (calculateBlurRadius watermarkRegion.width watermarkRegion.height)
        frameData.width frameData.height }

/-- A pixel coordinate lying inside the full image bounds. -/
def pixelIn (imageWidth imageHeight : Nat) (p : Int × Int) : Prop :=
  0 ≤ p.1 ∧ p.1 < imageWidth ∧ 0 ≤ p.2 ∧ p.2 < imageHeight

instance (W H : Nat) (p : Int × Int) : Decidable (pixelIn W H p) := by
  unfold pixelIn; infer_instance

/-- `(x, y)` lies strictly inside the region rectangle (the set of pixels
the blur loop visits). -/
def regContains (r : Region) (x y : Int) : Prop :=
  r.x ≤ x ∧ x < r.x + r.width ∧ r.y ≤ y ∧ y < r.y + r.height

instance (r : Region) (x y : Int) : Decidable (regContains r x y) := by
  unfold regContains; infer_instance

/-- The value `applyBlurEffect` deposits in channel `c` of pixel `(x, y)`:
the stored mean of the in-bounds kernel samples for `c < 3`, the source
alpha for `c = 3`, and a verbatim source copy when no sample was in
bounds. -/
def blurredAt (sourcePixels : List Nat) (radius : Int) (imageWidth imageHeight : Nat)
    (x y : Int) (c : Nat) : Nat :=
  let bases := sampleBases imageWidth imageHeight radius x y
  let targetIdx := (y * imageWidth + x).toNat * 4
  if 0 < bases.length then
    if c = 3 then sourcePixels.getD (targetIdx + 3) 0
    else storeByte (channelSum sourcePixels bases c) bases.length
  else sourcePixels.getD (targetIdx + c) 0

/-- The inputs `VideoProcessor.processVideo` reads from its video element:
`duration` (`none` models a non-finite JavaScript number), the optional
source-reported `captureFrameRate` (`none` models `undefined`/`NaN`, which
are falsy), and the source dimensions. -/
structure VideoElement where
  duration : Option ℚ
  captureFrameRate : Option ℚ
  videoWidth : Nat
  videoHeight : Nat

/-- `Math.min(30, videoElement.captureFrameRate || 30)`: a missing or falsy
(zero) reported rate defaults to 30, then the rate is capped at 30. -/
def processingFrameRate (v : VideoElement) : ℚ :=
  min 30 (match v.captureFrameRate with
    | none => 30
    | some q => if q = 0 then 30 else q)

/-- `Math.floor(duration * processingFrameRate)`; `none` when the duration
(and hence the product) is non-finite. -/
def totalFramesToProcess (v : VideoElement) : Option Int :=
  v.duration.map (fun d => ⌊d * processingFrameRate v⌋)

/-- `VideoProcessor.processVideo`, up to the hand-off of the accumulated
frame sequence to the external encoder (`assembleVideo`, which is a browser
`MediaRecorder` wrapper and out of algorithmic scope): compute the sampling
parameters, fail on a non-positive or non-finite sample count, fail when
the source dimensions cannot be determined, then loop over sample indices,
extracting a frame at `i / processingFrameRate`, blurring it, and appending
it to the accumulator; an extraction failure is caught and the loop
continues.  After the loop, an empty accumulator is a failure.  The
`extractFrame` collaborator is passed in as a function of the requested
timestamp. -/
def processVideo (videoElement : VideoElement) (watermarkRegion : Region)
    (extractFrame : ℚ → Except String ImageData) : Except String (List ImageData) :=
  match totalFramesToProcess videoElement with
  | none => Except.error "Invalid video duration or frame rate, cannot process."
  | some total =>
    if total ≤ 0 then
      Except.error "Invalid video duration or frame rate, cannot process."
    else if videoElement.videoWidth = 0 ∨ videoElement.videoHeight = 0 then
      Except.error "Could not determine video dimensions for processing."
    else
      let processedFrames := (List.range total.toNat).foldl (fun acc (i : Nat) =>
        match extractFrame ((i : ℚ) / processingFrameRate videoElement) with
        | Except.ok frameData => acc ++ [blurWatermark frameData watermarkRegion]
        | Except.error _ => acc) []
      if processedFrames.isEmpty then
        Except.error "No frames were processed. Video processing failed."
      else Except.ok processedFrames

/-- A rectangle with arbitrary JavaScript-number fields (embedded as `ℚ`),
used to analyze the validation test on non-integer inputs. -/
structure RegionQ where
  x : ℚ
  y : ℚ
  width : ℚ
  height : ℚ
deriving DecidableEq, Repr

/-- The validation test of both processors executed on arbitrary number
fields: `x < 0 || y < 0 || x + width > imageWidth || y + height >
imageHeight || width <= 0 || height <= 0` — note it contains no
integrality check. -/
def invalidRegionQ (r : RegionQ) (imageWidth imageHeight : Nat) : Bool :=
  decide (r.x < 0 ∨ r.y < 0 ∨ r.x + r.width > (imageWidth : ℚ) ∨
    r.y + r.height > (imageHeight : ℚ) ∨ r.width ≤ 0 ∨ r.height ≤ 0)

deriving instance DecidableEq for Except

/-! Concrete inputs used by the witness/counterexample theorems. -/

/-- A 4×4 image whose only nonzero sample is the red channel of pixel
`(0, 0)`; blurring spreads it unevenly (edge counts differ), so a second
blur moves the values again. -/
def idemImage : ImageData := ⟨4, 4, 255 :: List.replicate 63 0⟩

/-- The full-frame region of `idemImage`. -/
def idemRegion : Region := ⟨0, 0, 4, 4⟩

/-- A 5×5 image with a varied sample pattern. -/
def wImage1 : ImageData := ⟨5, 5, (List.range 100).map (fun i => i % 9)⟩

/-- An interior region of `wImage1`. -/
def wRegion1 : Region := ⟨1, 1, 3, 3⟩

/-- A 4×4 image of constant sample value 3. -/
def wImage2 : ImageData := ⟨4, 4, List.replicate 64 3⟩

/-- An interior region of `wImage2`. -/
def wRegion2 : Region := ⟨1, 1, 2, 2⟩

/-- A 3×3 image with pairwise distinct samples. -/
def wImage8 : ImageData := ⟨3, 3, List.range 36⟩

/-- The full-frame region of `wImage8`. -/
def wRegion8 : Region := ⟨0, 0, 3, 3⟩

/-- A 2×2 all-zero image for the invalid-region scenarios. -/
def wImage5 : ImageData := ⟨2, 2, List.replicate 16 0⟩

/-- A region with negative `x`: violates the Rectangle invariant. -/
def wRegion5 : Region := ⟨-1, 0, 1, 1⟩

/-- The per-channel sample value of the uniform-color scenario buffer
`(200, 100, 50, 255)`. -/
def uniformColor (c : Nat) : Nat :=
  if c = 0 then 200 else if c = 1 then 100 else if c = 2 then 50 else 255

/-- The 100×100 buffer of uniform color `(200, 100, 50, 255)`. -/
def uniformImage : ImageData :=
  ⟨100, 100, (List.replicate (100 * 100) [200, 100, 50, 255]).flatten⟩

/-- The region `{x: 20, y: 20, width: 30, height: 30}` of the uniform-color
scenario. -/
def uniformRegion : Region := ⟨20, 20, 30, 30⟩

/-- A 1×1 frame for the video-pipeline scenarios. -/
def demoFrame : ImageData := ⟨1, 1, [10, 20, 30, 40]⟩

/-- The full-frame region of `demoFrame`. -/
def demoRegion : Region := ⟨0, 0, 1, 1⟩

/-- A 10-second source reporting 1 fps: ten samples at timestamps
`0, 1, …, 9`. -/
def demoVideo : VideoElement := ⟨some 10, some 1, 1, 1⟩

/-- A frame source that fails exactly at the sixth sample (index 5,
timestamp `5`) and returns `demoFrame` elsewhere. -/
def demoFrameSource (t : ℚ) : Except String ImageData :=
  if t = 5 then Except.error "Error seeking video: SeekError" else Except.ok demoFrame

/-- A source with a non-finite duration. -/
def nonfiniteVideo : VideoElement := ⟨none, some 24, 2, 2⟩

/-- A source with zero duration (sample count 0). -/
def zeroDurationVideo : VideoElement := ⟨some 0, none, 2, 2⟩

/-- A frame source that always succeeds, for the failure scenarios. -/
def okFrameSource (_ : ℚ) : Except String ImageData := Except.ok demoFrame

/-! Helper lemmas about buffer writes and pixel-index arithmetic. -/

theorem getD_set {l : List Nat} {i j v : Nat} (hi : i < l.length) :
    (l.set i v).getD j 0 = if j = i then v else l.getD j 0 := by
  rcases Nat.lt_or_ge j l.length with hj | hj
  · have hj2 : j < (l.set i v).length := by simpa using hj
    rw [List.getD_eq_getElem _ _ hj2, List.getElem_set, List.getD_eq_getElem _ _ hj]
    rcases eq_or_ne i j with h | h
    · subst h; simp
    · rw [if_neg h, if_neg (fun hh => h hh.symm)]
  · have hj2 : (l.set i v).length ≤ j := by simpa using hj
    rw [List.getD_eq_default _ _ hj2, List.getD_eq_default _ _ hj]
    have hne : j ≠ i := by omega
    rw [if_neg hne]

/-- Reading back after the four consecutive channel writes of one pixel. -/
theorem set4_getD (l : List Nat) (B v0 v1 v2 v3 : Nat) (hB : B + 3 < l.length) (i : Nat) :
    ((((l.set B v0).set (B + 1) v1).set (B + 2) v2).set (B + 3) v3).getD i 0 =
      if i = B then v0 else if i = B + 1 then v1 else if i = B + 2 then v2
      else if i = B + 3 then v3 else l.getD i 0 := by
  rw [getD_set (by simp; omega), getD_set (by simp; omega), getD_set (by simp; omega),
    getD_set (by omega)]
  by_cases h0 : i = B
  · subst h0
    rw [if_neg (by omega), if_neg (by omega), if_neg (by omega), if_pos rfl, if_pos rfl]
  · by_cases h1 : i = B + 1
    · subst h1
      rw [if_neg (by omega), if_neg (by omega), if_pos rfl, if_neg (by omega), if_pos rfl]
    · by_cases h2 : i = B + 2
      · subst h2
        rw [if_neg (by omega), if_pos rfl, if_neg (by omega), if_neg (by omega), if_pos rfl]
      · by_cases h3 : i = B + 3
        · subst h3
          rw [if_pos rfl, if_neg (by omega), if_neg (by omega), if_neg (by omega), if_pos rfl]
        · rw [if_neg h3, if_neg h2, if_neg h1, if_neg h0, if_neg h0, if_neg h1, if_neg h2,
            if_neg h3]

theorem writePixel_length (src : List Nat) (radius : Int) (W H : Nat) (tgt : List Nat)
    (p : Int × Int) : (writePixel src radius W H tgt p).length = tgt.length := by
  simp only [writePixel]
  split <;> simp

theorem foldl_writePixel_length (src : List Nat) (radius : Int) (W H : Nat)
    (L : List (Int × Int)) : ∀ tgt : List Nat,
    (L.foldl (writePixel src radius W H) tgt).length = tgt.length := by
  induction L with
  | nil => intro tgt; rfl
  | cons p L ih =>
    intro tgt
    simp only [List.foldl_cons]
    rw [ih, writePixel_length]

theorem toNat_mul_add (x y : Int) (W : Nat) (hx : 0 ≤ x) (hy : 0 ≤ y) :
    (y * (W : Int) + x).toNat = y.toNat * W + x.toNat := by
  obtain ⟨a, ha⟩ := Int.le.dest hx
  obtain ⟨b, hb⟩ := Int.le.dest hy
  simp only [zero_add] at ha hb
  subst ha
  subst hb
  have hcast : ((b : Int) * W + a) = ((b * W + a : Nat) : Int) := by push_cast; ring
  rw [hcast, Int.toNat_natCast, Int.toNat_natCast, Int.toNat_natCast]

theorem pix_lt {W H : Nat} {p : Int × Int} (hp : pixelIn W H p) :
    (p.2 * W + p.1).toNat < W * H := by
  obtain ⟨hx0, hxW, hy0, hyH⟩ := hp
  rw [toNat_mul_add _ _ _ hx0 hy0]
  have hxn : p.1.toNat < W := by omega
  have hyn : p.2.toNat < H := by omega
  calc p.2.toNat * W + p.1.toNat < p.2.toNat * W + W := by omega
    _ = (p.2.toNat + 1) * W := by ring
    _ ≤ H * W := Nat.mul_le_mul_right W (by omega)
    _ = W * H := Nat.mul_comm H W

theorem pix_unique {W H : Nat} {p : Int × Int} (hp : pixelIn W H p) {q : Nat}
    (hq : (p.2 * W + p.1).toNat = q) :
    p.1 = ((q % W : Nat) : Int) ∧ p.2 = ((q / W : Nat) : Int) := by
  obtain ⟨hx0, hxW, hy0, hyH⟩ := hp
  rw [toNat_mul_add _ _ _ hx0 hy0] at hq
  subst hq
  have hW : 0 < W := by omega
  have hxn : p.1.toNat < W := by omega
  have h1 : (p.2.toNat * W + p.1.toNat) % W = p.1.toNat := by
    rw [Nat.mul_comm p.2.toNat W, Nat.mul_add_mod, Nat.mod_eq_of_lt hxn]
  have h2 : (p.2.toNat * W + p.1.toNat) / W = p.2.toNat := by
    rw [Nat.mul_comm p.2.toNat W, Nat.mul_add_div hW, Nat.div_eq_of_lt hxn]
    omega
  refine ⟨?_, ?_⟩
  · rw [h1, Int.toNat_of_nonneg hx0]
  · rw [h2, Int.toNat_of_nonneg hy0]

theorem base_add_lt {W H : Nat} {p : Int × Int} (hp : pixelIn W H p) (c : Nat) (hc : c < 4) :
    (p.2 * W + p.1).toNat * 4 + c < W * H * 4 := by
  have h1 := pix_lt hp
  generalize ht : (p.2 * (W : Int) + p.1).toNat = t at h1 ⊢
  generalize hM : W * H = M at h1 ⊢
  omega

/-- One loop-body execution only touches the four channel slots of its own
pixel, depositing exactly the `blurredAt` values there. -/
theorem writePixel_getD (src : List Nat) (radius : Int) (W H : Nat) (tgt : List Nat)
    (p : Int × Int) (hp : pixelIn W H p) (hlen : tgt.length = W * H * 4)
    (i : Nat) (hi : i < W * H * 4) :
    (writePixel src radius W H tgt p).getD i 0 =
      if i / 4 = (p.2 * W + p.1).toNat then blurredAt src radius W H p.1 p.2 (i % 4)
      else tgt.getD i 0 := by
  have hB3 : (p.2 * (W : Int) + p.1).toNat * 4 + 3 < tgt.length := by
    rw [hlen]; exact base_add_lt hp 3 (by omega)
  simp only [writePixel, blurredAt]
  by_cases hcount : 0 < (sampleBases W H radius p.1 p.2).length
  · rw [if_pos hcount, if_pos hcount]
    rw [set4_getD tgt _ _ _ _ _ hB3 i]
    generalize hT : (p.2 * (W : Int) + p.1).toNat = T at hB3 ⊢
    by_cases hq : i / 4 = T
    · rw [if_pos hq]
      rcases (show i = T * 4 ∨ i = T * 4 + 1 ∨ i = T * 4 + 2 ∨ i = T * 4 + 3 by omega)
        with h | h | h | h
      · subst h
        rw [if_pos rfl, if_neg (by omega), show T * 4 % 4 = 0 by omega]
      · subst h
        rw [if_neg (by omega), if_pos rfl, if_neg (by omega),
          show (T * 4 + 1) % 4 = 1 by omega]
      · subst h
        rw [if_neg (by omega), if_neg (by omega), if_pos rfl, if_neg (by omega),
          show (T * 4 + 2) % 4 = 2 by omega]
      · subst h
        rw [if_neg (by omega), if_neg (by omega), if_neg (by omega), if_pos rfl,
          if_pos (by omega)]
    · rw [if_neg hq, if_neg (by omega), if_neg (by omega), if_neg (by omega),
        if_neg (by omega)]
  · rw [if_neg hcount, if_neg hcount]
    rw [set4_getD tgt _ _ _ _ _ hB3 i]
    generalize hT : (p.2 * (W : Int) + p.1).toNat = T at hB3 ⊢
    by_cases hq : i / 4 = T
    · rw [if_pos hq]
      rcases (show i = T * 4 ∨ i = T * 4 + 1 ∨ i = T * 4 + 2 ∨ i = T * 4 + 3 by omega)
        with h | h | h | h
      · subst h
        rw [if_pos rfl, show T * 4 % 4 = 0 by omega]
        rw [Nat.add_zero]
      · subst h
        rw [if_neg (by omega), if_pos rfl, show (T * 4 + 1) % 4 = 1 by omega]
      · subst h
        rw [if_neg (by omega), if_neg (by omega), if_pos rfl,
          show (T * 4 + 2) % 4 = 2 by omega]
      · subst h
        rw [if_neg (by omega), if_neg (by omega), if_neg (by omega), if_pos rfl,
          show (T * 4 + 3) % 4 = 3 by omega]
    · rw [if_neg hq, if_neg (by omega), if_neg (by omega), if_neg (by omega),
        if_neg (by omega)]

/-- A channel slot whose pixel is visited by no element of the write list is
left untouched by the whole fold. -/
theorem foldl_writePixel_not_mem (src : List Nat) (radius : Int) (W H : Nat) (i : Nat)
    (hi : i < W * H * 4) :
    ∀ (L : List (Int × Int)) (tgt : List Nat), (∀ p ∈ L, pixelIn W H p) →
    tgt.length = W * H * 4 → (∀ p ∈ L, (p.2 * W + p.1).toNat ≠ i / 4) →
    (L.foldl (writePixel src radius W H) tgt).getD i 0 = tgt.getD i 0 := by
  intro L
  induction L with
  | nil => intro tgt _ _ _; rfl
  | cons q L ih =>
    intro tgt hmem hlen hni
    simp only [List.foldl_cons]
    rw [ih (writePixel src radius W H tgt q) (fun p hp => hmem p (List.mem_cons_of_mem _ hp))
      (by rw [writePixel_length, hlen]) (fun p hp => hni p (List.mem_cons_of_mem _ hp))]
    rw [writePixel_getD src radius W H tgt q (hmem q (List.mem_cons_self q L)) hlen i hi]
    exact if_neg (fun h => hni q (List.mem_cons_self q L) h.symm)

/-- A channel slot whose pixel is visited by exactly the element `p` of a
duplicate-free write list ends up holding `blurredAt` for `p`. -/
theorem foldl_writePixel_mem (src : List Nat) (radius : Int) (W H : Nat) (i : Nat)
    (hi : i < W * H * 4) :
    ∀ (L : List (Int × Int)) (tgt : List Nat), (∀ p ∈ L, pixelIn W H p) → L.Nodup →
    tgt.length = W * H * 4 → ∀ p ∈ L, (p.2 * W + p.1).toNat = i / 4 →
    (L.foldl (writePixel src radius W H) tgt).getD i 0 =
      blurredAt src radius W H p.1 p.2 (i % 4) := by
  intro L
  induction L with
  | nil =>
    intro tgt _ _ _ p hp _
    exact absurd hp (List.not_mem_nil p)
  | cons q L ih =>
    intro tgt hmem hnd hlen p hp hq
    simp only [List.foldl_cons]
    rcases List.mem_cons.mp hp with heq | hpL
    · subst heq
      have hnone : ∀ p2 ∈ L, (p2.2 * W + p2.1).toNat ≠ i / 4 := by
        intro p2 hp2 h2
        have hpin : pixelIn W H p := hmem p (List.mem_cons_self p L)
        have hp2in : pixelIn W H p2 := hmem p2 (List.mem_cons_of_mem _ hp2)
        have e1 := pix_unique hpin hq
        have e2 := pix_unique hp2in h2
        have hpp : p2 = p := Prod.ext (e2.1.trans e1.1.symm) (e2.2.trans e1.2.symm)
        exact (List.nodup_cons.mp hnd).1 (hpp ▸ hp2)
      rw [foldl_writePixel_not_mem src radius W H i hi L (writePixel src radius W H tgt p)
        (fun r2 hr => hmem r2 (List.mem_cons_of_mem _ hr))
        (by rw [writePixel_length, hlen]) hnone]
      rw [writePixel_getD src radius W H tgt p (hmem p (List.mem_cons_self p L)) hlen i hi]
      exact if_pos hq.symm
    · exact ih (writePixel src radius W H tgt q)
        (fun r2 hr => hmem r2 (List.mem_cons_of_mem _ hr)) (List.nodup_cons.mp hnd).2
        (by rw [writePixel_length, hlen]) p hpL hq

/-- The loop visits exactly the pixels strictly inside the region. -/
theorem mem_regionPixels {r : Region} {p : Int × Int} :
    p ∈ regionPixels r ↔ regContains r p.1 p.2 := by
  obtain ⟨px, py⟩ := p
  simp only [regContains]
  unfold regionPixels
  rw [List.mem_flatMap]
  constructor
  · rintro ⟨dy, hdy, hmem⟩
    rw [List.mem_range] at hdy
    rw [List.mem_map] at hmem
    obtain ⟨dx, hdx, heq⟩ := hmem
    rw [List.mem_range] at hdx
    cases heq
    exact ⟨by omega, by omega, by omega, by omega⟩
  · rintro ⟨h1, h2, h3, h4⟩
    refine ⟨(py - r.y).toNat, ?_, ?_⟩
    · rw [List.mem_range]; omega
    · rw [List.mem_map]
      refine ⟨(px - r.x).toNat, ?_, ?_⟩
      · rw [List.mem_range]; omega
      · have e1 : r.x + (((px - r.x).toNat : Nat) : Int) = px := by omega
        have e2 : r.y + (((py - r.y).toNat : Nat) : Int) = py := by omega
        rw [Prod.mk.injEq]
        exact ⟨e1, e2⟩

/-- The loop visits each pixel of the region exactly once. -/
theorem nodup_regionPixels (r : Region) : (regionPixels r).Nodup := by
  unfold regionPixels
  rw [List.nodup_flatMap]
  constructor
  · intro dy hdy
    exact List.Nodup.map
      (fun a b hab => by
        have hfst := congrArg Prod.fst hab
        simp only at hfst
        omega)
      (List.nodup_range _)
  · have hpw : List.Pairwise (fun a b : Nat => a ≠ b) (List.range r.height.toNat) :=
      List.nodup_range _
    refine hpw.imp ?_
    intro a b hab z hza hzb
    simp only [List.mem_map, List.mem_range] at hza hzb
    obtain ⟨dx1, hlt1, h1⟩ := hza
    obtain ⟨dx2, hlt2, h2⟩ := hzb
    have hsnd := congrArg Prod.snd (h1.trans h2.symm)
    simp only at hsnd
    exact hab (by omega)

/-- The shared validation test passes exactly on the Rectangle invariant. -/
theorem invalidRegion_eq_false_iff {r : Region} {W H : Nat} :
    invalidRegion r W H = false ↔
      0 ≤ r.x ∧ 0 ≤ r.y ∧ r.x + r.width ≤ W ∧ r.y + r.height ≤ H ∧
        0 < r.width ∧ 0 < r.height := by
  simp only [invalidRegion, decide_eq_false_iff_not]
  omega

/-- Under a valid region, every visited pixel lies inside the image. -/
theorem regionPixels_pixelIn {r : Region} {W H : Nat}
    (hval : invalidRegion r W H = false) : ∀ p ∈ regionPixels r, pixelIn W H p := by
  intro p hp
  rw [mem_regionPixels] at hp
  obtain ⟨h1, h2, h3, h4, h5, h6⟩ := invalidRegion_eq_false_iff.mp hval
  obtain ⟨c1, c2, c3, c4⟩ := hp
  exact ⟨by omega, by omega, by omega, by omega⟩

/-- Pointwise characterization of the write loop over any duplicate-free
list of in-image pixels: channel slot `i` holds the `blurredAt` value of
its own pixel when that pixel is in the list, and the untouched target
value otherwise.  In particular the result is independent of the order of
the list. -/
theorem foldl_writePixel_char (src : List Nat) (radius : Int) (W H : Nat)
    (L : List (Int × Int)) (tgt : List Nat) (hmem : ∀ p ∈ L, pixelIn W H p)
    (hnd : L.Nodup) (hlen : tgt.length = W * H * 4) (i : Nat) (hi : i < W * H * 4) :
    (L.foldl (writePixel src radius W H) tgt).getD i 0 =
      if (((i / 4 % W : Nat) : Int), ((i / 4 / W : Nat) : Int)) ∈ L then
        blurredAt src radius W H ((i / 4 % W : Nat) : Int) ((i / 4 / W : Nat) : Int) (i % 4)
      else tgt.getD i 0 := by
  by_cases hmem2 : (((i / 4 % W : Nat) : Int), ((i / 4 / W : Nat) : Int)) ∈ L
  · rw [if_pos hmem2]
    refine foldl_writePixel_mem src radius W H i hi L tgt hmem hnd hlen _ hmem2 ?_
    show ((((i / 4 / W : Nat) : Int)) * W + ((i / 4 % W : Nat) : Int)).toNat = i / 4
    rw [toNat_mul_add _ _ _ (Int.natCast_nonneg _) (Int.natCast_nonneg _),
      Int.toNat_natCast, Int.toNat_natCast, Nat.mul_comm]
    exact Nat.div_add_mod (i / 4) W
  · rw [if_neg hmem2]
    apply foldl_writePixel_not_mem src radius W H i hi L tgt hmem hlen
    intro p hp hcontra
    have hpin := hmem p hp
    obtain ⟨c1, c2⟩ := pix_unique hpin hcontra
    have hpp : p = (((i / 4 % W : Nat) : Int), ((i / 4 / W : Nat) : Int)) := Prod.ext c1 c2
    exact hmem2 (hpp ▸ hp)

/-- Pointwise characterization of `applyBlurEffect` under a valid region:
slot `i` of the output holds the `blurredAt` value of its pixel when that
pixel is strictly inside the region, and the untouched target value
otherwise.  Every `blurredAt` value reads `src` only, the pre-blur data. -/
theorem applyBlurEffect_getD (src tgt : List Nat) (r : Region) (radius : Int) (W H : Nat)
    (hval : invalidRegion r W H = false) (hlen : tgt.length = W * H * 4)
    (i : Nat) (hi : i < W * H * 4) :
    (applyBlurEffect tgt src r radius W H).getD i 0 =
      if regContains r ((i / 4 % W : Nat) : Int) ((i / 4 / W : Nat) : Int) then
        blurredAt src radius W H ((i / 4 % W : Nat) : Int) ((i / 4 / W : Nat) : Int) (i % 4)
      else tgt.getD i 0 := by
  unfold applyBlurEffect
  rw [foldl_writePixel_char src radius W H (regionPixels r) tgt
    (regionPixels_pixelIn hval) (nodup_regionPixels r) hlen i hi]
  by_cases h : regContains r ((i / 4 % W : Nat) : Int) ((i / 4 / W : Nat) : Int)
  · rw [if_pos (mem_regionPixels.mpr h), if_pos h]
  · rw [if_neg (fun hm => h (mem_regionPixels.mp hm)), if_neg h]

/-- Casting a pixel's row/column decomposition back to a linear index. -/
theorem toNat_pix_cast (W q : Nat) :
    ((((q / W : Nat) : Int)) * (W : Int) + ((q % W : Nat) : Int)).toNat = q := by
  rw [toNat_mul_add _ _ _ (Int.natCast_nonneg _) (Int.natCast_nonneg _),
    Int.toNat_natCast, Int.toNat_natCast, Nat.mul_comm]
  exact Nat.div_add_mod q W

/-- Every kernel-sample base index is a pixel base inside the buffer. -/
theorem sampleBases_mem {W H : Nat} {radius x y : Int} {b : Nat}
    (hb : b ∈ sampleBases W H radius x y) : ∃ s, s < W * H ∧ b = s * 4 := by
  simp only [sampleBases] at hb
  rw [List.mem_flatMap] at hb
  obtain ⟨ky, hky, hb⟩ := hb
  rw [List.mem_filterMap] at hb
  obtain ⟨kx, hkx, hsome⟩ := hb
  by_cases hc : sampleInBounds W H (x + kx) (y + ky)
  · rw [if_pos hc] at hsome
    obtain ⟨hsx0, hsxW, hsy0, hsyH⟩ := hc
    have hlt : ((y + ky) * W + (x + kx)).toNat < W * H :=
      pix_lt (p := (x + kx, y + ky)) ⟨hsx0, hsxW, hsy0, hsyH⟩
    exact ⟨((y + ky) * W + (x + kx)).toNat, hlt, (Option.some.inj hsome).symm⟩
  · rw [if_neg hc] at hsome
    cases hsome

/-- Summing a function that is constant on the list's members. -/
theorem sum_const_list {l : List Nat} {f : Nat → Nat} {k : Nat}
    (h : ∀ b ∈ l, f b = k) : (l.map f).sum = l.length * k := by
  induction l with
  | nil => simp
  | cons a l ih =>
    simp only [List.map_cons, List.sum_cons, List.length_cons]
    rw [h a (List.mem_cons_self a l), ih (fun b hb => h b (List.mem_cons_of_mem _ hb))]
    ring

/-- A mean of a constant byte value stores that value back unchanged. -/
theorem storeByte_const {n v : Nat} (hn : 0 < n) (hv : v ≤ 255) :
    storeByte (n * v) n = v := by
  simp only [storeByte, roundHalfEven]
  rw [Nat.mul_div_cancel_left v hn, Nat.mul_mod_right]
  rw [if_pos (by omega : 2 * 0 < n)]
  exact min_eq_right hv

/-- Reading one sample out of a buffer built from a repeated 4-sample
pixel pattern. -/
theorem flatten_replicate_getD (n i : Nat) (P : List Nat) (hP : P.length = 4)
    (hi : i < 4 * n) :
    ((List.replicate n P).flatten).getD i 0 = P.getD (i % 4) 0 := by
  induction n generalizing i with
  | zero => omega
  | succ n ih =>
    rw [List.replicate_succ, List.flatten_cons]
    by_cases h4 : i < 4
    · rw [List.getD_append _ _ _ _ (by omega), Nat.mod_eq_of_lt h4]
    · rw [List.getD_append_right _ _ _ _ (by omega), hP, ih (i - 4) (by omega)]
      congr 1
      omega

/-- The frame-accumulation loop collects exactly the successful
extractions, in sample order. -/
theorem foldl_collect_filterMap (e : ℚ → Except String ImageData) (r : Region)
    (rate : ℚ) (L : List Nat) : ∀ acc : List ImageData,
    L.foldl (fun acc (i : Nat) =>
      match e ((i : ℚ) / rate) with
      | Except.ok frameData => acc ++ [blurWatermark frameData r]
      | Except.error _ => acc) acc
    = acc ++ L.filterMap (fun (i : Nat) =>
        match e ((i : ℚ) / rate) with
        | Except.ok frameData => some (blurWatermark frameData r)
        | Except.error _ => none) := by
  induction L with
  | nil => intro acc; simp
  | cons a L ih =>
    intro acc
    simp only [List.foldl_cons, List.filterMap_cons]
    cases he : e ((a : ℚ) / rate) with
    | ok f =>
      simp only [he]
      rw [ih]
      simp
    | error s =>
      simp only [he]
      rw [ih]

/-! The claims. -/

/-- C3: the blur-radius derivation is the pure deterministic function
`clamp(floor(min(max(1,w), max(1,h)) * 0.05), 2, 10)` (the integer floor of
`minDim * 0.05` being `minDim / 20`); `radius(40,40) = 2`,
`radius(400,400) = 10`, `radius(1,1) = 2`, and every result lies in
`[2, 10]`.  Determinism/purity is inherent: `calculateBlurRadius` is a
function of its two arguments alone. -/
theorem calculateBlurRadius_formula :
    calculateBlurRadius 40 40 = 2 ∧ calculateBlurRadius 400 400 = 10 ∧
    calculateBlurRadius 1 1 = 2 ∧
    ∀ w h : Int, calculateBlurRadius w h =
        min 10 (max 2 (min (max 1 w) (max 1 h) / 20)) ∧
      2 ≤ calculateBlurRadius w h ∧ calculateBlurRadius w h ≤ 10 := by
  refine ⟨by decide, by decide, by decide, ?_⟩
  intro w h
  refine ⟨rfl, ?_, ?_⟩
  · unfold calculateBlurRadius
    simp only [min_def, max_def]
    split_ifs <;> omega
  · unfold calculateBlurRadius
    simp only [min_def, max_def]
    split_ifs <;> omega

/-- C5: for every region violating the Rectangle invariant, the image path
(`removeWatermark`) fails with the invalid-region error and produces no
buffer, while the video path (`blurWatermark`) returns the input frame
unchanged. -/
theorem invalid_region_paths (img : ImageData) (r : Region)
    (hbad : r.x < 0 ∨ r.y < 0 ∨ r.width ≤ 0 ∨ r.height ≤ 0 ∨
      (img.width : Int) < r.x + r.width ∨ (img.height : Int) < r.y + r.height) :
    removeWatermark img r = Except.error
        "Watermark region is invalid or outside image boundaries. Please make a valid selection." ∧
      blurWatermark img r = img := by
  have hinv : invalidRegion r img.width img.height = true := by
    simp only [invalidRegion, decide_eq_true_eq]
    omega
  constructor
  · simp [removeWatermark, hinv]
  · simp [blurWatermark, hinv]

/-- Witness for C5 at a concrete negative-`x` region. -/
theorem invalid_region_paths_witness :
    removeWatermark wImage5 wRegion5 = Except.error
        "Watermark region is invalid or outside image boundaries. Please make a valid selection." ∧
      blurWatermark wImage5 wRegion5 = wImage5 :=
  invalid_region_paths wImage5 wRegion5 (by decide)

/-- C9: the blur is not idempotent: there is a source buffer and valid
region for which blurring twice differs from blurring once. -/
theorem blur_not_idempotent :
    ∃ (img : ImageData) (r : Region), invalidRegion r img.width img.height = false ∧
      (removeWatermark img r).bind (fun o => removeWatermark o r) ≠
        removeWatermark img r :=
  ⟨idemImage, idemRegion, by decide, by decide⟩

/-- C10: the validation test in both processors is exactly the six
inequalities — it has no integrality check: on arbitrary number fields it
passes precisely when the inequalities hold (second conjunct: it restricts
to the integer test actually guarding `removeWatermark`/`blurWatermark`),
and the fractional rectangle `{x: 1/2, y: 1/2, width: 3/2, height: 3/2}`
passes it against a 100×100 image even though `1/2` is not an integer. -/
theorem validation_no_integrality_check :
    (∀ (r : RegionQ) (W H : Nat), invalidRegionQ r W H = false ↔
        0 ≤ r.x ∧ 0 ≤ r.y ∧ r.x + r.width ≤ (W : ℚ) ∧ r.y + r.height ≤ (H : ℚ) ∧
          0 < r.width ∧ 0 < r.height) ∧
    (∀ (r : Region) (W H : Nat),
        invalidRegionQ ⟨(r.x : ℚ), (r.y : ℚ), (r.width : ℚ), (r.height : ℚ)⟩ W H =
          invalidRegion r W H) ∧
    invalidRegionQ ⟨1/2, 1/2, 3/2, 3/2⟩ 100 100 = false ∧
    ¬ ∃ n : ℤ, ((1 : ℚ) / 2) = (n : ℚ) := by
  refine ⟨?_, ?_, ?_, ?_⟩
  case refine_3 =>
    simp only [invalidRegionQ, decide_eq_false_iff_not]
    push_neg
    norm_num
  · intro r W H
    simp only [invalidRegionQ, decide_eq_false_iff_not]
    push_neg
    constructor
    · rintro ⟨h1, h2, h3, h4, h5, h6⟩
      exact ⟨h1, h2, h3, h4, h5, h6⟩
    · rintro ⟨h1, h2, h3, h4, h5, h6⟩
      exact ⟨h1, h2, h3, h4, h5, h6⟩
  · intro r W H
    simp only [invalidRegionQ, invalidRegion]
    rw [decide_eq_decide]
    constructor
    · rintro (h | h | h | h | h | h)
      · exact Or.inl (by exact_mod_cast h)
      · exact Or.inr (Or.inl (by exact_mod_cast h))
      · refine Or.inr (Or.inr (Or.inl ?_))
        have : ((W : Int) : ℚ) < ((r.x + r.width : Int) : ℚ) := by push_cast; linarith
        exact_mod_cast this
      · refine Or.inr (Or.inr (Or.inr (Or.inl ?_)))
        have : ((H : Int) : ℚ) < ((r.y + r.height : Int) : ℚ) := by push_cast; linarith
        exact_mod_cast this
      · exact Or.inr (Or.inr (Or.inr (Or.inr (Or.inl (by exact_mod_cast h)))))
      · exact Or.inr (Or.inr (Or.inr (Or.inr (Or.inr (by exact_mod_cast h)))))
    · rintro (h | h | h | h | h | h)
      · exact Or.inl (by exact_mod_cast h)
      · exact Or.inr (Or.inl (by exact_mod_cast h))
      · refine Or.inr (Or.inr (Or.inl ?_))
        have h2 : ((W : Int) : ℚ) < ((r.x + r.width : Int) : ℚ) := by exact_mod_cast h
        push_cast at h2
        linarith
      · refine Or.inr (Or.inr (Or.inr (Or.inl ?_)))
        have h2 : ((H : Int) : ℚ) < ((r.y + r.height : Int) : ℚ) := by exact_mod_cast h
        push_cast at h2
        linarith
      · exact Or.inr (Or.inr (Or.inr (Or.inr (Or.inl (by exact_mod_cast h)))))
      · exact Or.inr (Or.inr (Or.inr (Or.inr (Or.inr (by exact_mod_cast h)))))
  · rintro ⟨n, hn⟩
    rw [div_eq_iff (by norm_num : (2 : ℚ) ≠ 0)] at hn
    have h2 : (1 : ℤ) = n * 2 := by exact_mod_cast hn
    omega

/-- Witness for C10: the fractional rectangle passing validation. -/
theorem validation_no_integrality_check_witness :
    invalidRegionQ ⟨1 / 2, 1 / 2, 3 / 2, 3 / 2⟩ 100 100 = false :=
  validation_no_integrality_check.2.2.1

/-- C2: for every valid region and source buffer, the blur output (same on
both processor paths) has identical dimensions and length, and every
channel slot of every pixel strictly outside the region is byte-identical
to the source. -/
theorem blur_outside_region_unchanged (img : ImageData) (r : Region)
    (hval : invalidRegion r img.width img.height = false)
    (hlen : img.data.length = img.width * img.height * 4) :
    ∃ out, removeWatermark img r = Except.ok out ∧ blurWatermark img r = out ∧
      out.width = img.width ∧ out.height = img.height ∧
      out.data.length = img.data.length ∧
      ∀ i, i < img.width * img.height * 4 →
        ¬ regContains r ((i / 4 % img.width : Nat) : Int)
          ((i / 4 / img.width : Nat) : Int) →
        out.data.getD i 0 = img.data.getD i 0 := by
  refine ⟨⟨img.width, img.height, applyBlurEffect img.data img.data r
      (calculateBlurRadius r.width r.height) img.width img.height⟩, ?_, ?_, rfl, rfl, ?_, ?_⟩
  · simp [removeWatermark, hval]
  · simp [blurWatermark, hval]
  · show (applyBlurEffect img.data img.data r
      (calculateBlurRadius r.width r.height) img.width img.height).length = img.data.length
    unfold applyBlurEffect
    rw [foldl_writePixel_length]
  · intro i hi hout
    show (applyBlurEffect img.data img.data r
      (calculateBlurRadius r.width r.height) img.width img.height).getD i 0 =
      img.data.getD i 0
    rw [applyBlurEffect_getD img.data img.data r _ img.width img.height hval hlen i hi]
    exact if_neg hout

/-- Witness for C2 at a concrete 4×4 image and interior 2×2 region. -/
theorem blur_outside_region_unchanged_witness :
    ∃ out, removeWatermark wImage2 wRegion2 = Except.ok out ∧
      blurWatermark wImage2 wRegion2 = out ∧
      out.width = wImage2.width ∧ out.height = wImage2.height ∧
      out.data.length = wImage2.data.length ∧
      ∀ i, i < wImage2.width * wImage2.height * 4 →
        ¬ regContains wRegion2 ((i / 4 % wImage2.width : Nat) : Int)
          ((i / 4 / wImage2.width : Nat) : Int) →
        out.data.getD i 0 = wImage2.data.getD i 0 :=
  blur_outside_region_unchanged wImage2 wRegion2 (by decide) (by decide)

/-- C1: for every valid region and source buffer and every pixel strictly
inside the region, the red, green and blue output channels hold the
arithmetic mean (stored as an 8-bit sample, per the host's clamped
rounding embodied in `storeByte`) of the source channels over the in-bounds
kernel samples, with the divisor `(sampleBases …).length` — the count of
samples actually summed, never the fixed kernel area; the alpha channel is
copied verbatim from the source at that exact coordinate; and with zero
in-bounds samples all four channels are copied verbatim. -/
theorem blur_inside_region_mean (img : ImageData) (r : Region) (x y : Int)
    (hval : invalidRegion r img.width img.height = false)
    (hlen : img.data.length = img.width * img.height * 4)
    (hin : regContains r x y) :
    ∃ out, removeWatermark img r = Except.ok out ∧
      ((0 < (sampleBases img.width img.height
            (calculateBlurRadius r.width r.height) x y).length →
        (∀ c, c < 3 →
          out.data.getD ((y * img.width + x).toNat * 4 + c) 0 =
            storeByte
              (channelSum img.data
                (sampleBases img.width img.height
                  (calculateBlurRadius r.width r.height) x y) c)
              (sampleBases img.width img.height
                (calculateBlurRadius r.width r.height) x y).length) ∧
        out.data.getD ((y * img.width + x).toNat * 4 + 3) 0 =
          img.data.getD ((y * img.width + x).toNat * 4 + 3) 0) ∧
      ((sampleBases img.width img.height
          (calculateBlurRadius r.width r.height) x y).length = 0 →
        ∀ c, c < 4 →
          out.data.getD ((y * img.width + x).toNat * 4 + c) 0 =
            img.data.getD ((y * img.width + x).toNat * 4 + c) 0)) := by
  obtain ⟨hx0, hy0, hxw, hyh, hw, hh⟩ := invalidRegion_eq_false_iff.mp hval
  obtain ⟨hr1, hr2, hr3, hr4⟩ := id hin
  have hpix : pixelIn img.width img.height (x, y) :=
    ⟨by omega, by omega, by omega, by omega⟩
  refine ⟨⟨img.width, img.height, applyBlurEffect img.data img.data r
      (calculateBlurRadius r.width r.height) img.width img.height⟩, ?_, ?_⟩
  · simp [removeWatermark, hval]
  have key : ∀ c, c < 4 →
      (applyBlurEffect img.data img.data r (calculateBlurRadius r.width r.height)
        img.width img.height).getD ((y * img.width + x).toNat * 4 + c) 0 =
        blurredAt img.data (calculateBlurRadius r.width r.height)
          img.width img.height x y c := by
    intro c hc
    have hi : (y * img.width + x).toNat * 4 + c < img.width * img.height * 4 :=
      base_add_lt hpix c hc
    have hdiv : ((y * img.width + x).toNat * 4 + c) / 4 = (y * img.width + x).toNat := by
      omega
    have hmod : ((y * img.width + x).toNat * 4 + c) % 4 = c := by
      omega
    obtain ⟨c1, c2⟩ := pix_unique hpix (rfl : (y * img.width + x).toNat = _)
    rw [applyBlurEffect_getD img.data img.data r _ img.width img.height hval hlen _ hi,
      hdiv, hmod, ← c1, ← c2, if_pos hin]
  refine ⟨fun hcnt => ⟨fun c hc => ?_, ?_⟩, fun hcnt c hc => ?_⟩
  · rw [key c (by omega)]
    simp only [blurredAt]
    rw [if_pos hcnt, if_neg (by omega : ¬ c = 3)]
  · rw [key 3 (by omega)]
    simp only [blurredAt]
    rw [if_pos hcnt]
    simp
  · rw [key c hc]
    simp only [blurredAt]
    rw [if_neg (by omega : ¬ 0 < (sampleBases img.width img.height
      (calculateBlurRadius r.width r.height) x y).length)]

/-- Witness for C1 at a concrete 5×5 image, interior 3×3 region, pixel
`(2, 2)`. -/
theorem blur_inside_region_mean_witness :
    ∃ out, removeWatermark wImage1 wRegion1 = Except.ok out ∧
      ((0 < (sampleBases wImage1.width wImage1.height
            (calculateBlurRadius wRegion1.width wRegion1.height) 2 2).length →
        (∀ c, c < 3 →
          out.data.getD (((2 : Int) * wImage1.width + 2).toNat * 4 + c) 0 =
            storeByte
              (channelSum wImage1.data
                (sampleBases wImage1.width wImage1.height
                  (calculateBlurRadius wRegion1.width wRegion1.height) 2 2) c)
              (sampleBases wImage1.width wImage1.height
                (calculateBlurRadius wRegion1.width wRegion1.height) 2 2).length) ∧
        out.data.getD (((2 : Int) * wImage1.width + 2).toNat * 4 + 3) 0 =
          wImage1.data.getD (((2 : Int) * wImage1.width + 2).toNat * 4 + 3) 0) ∧
      ((sampleBases wImage1.width wImage1.height
          (calculateBlurRadius wRegion1.width wRegion1.height) 2 2).length = 0 →
        ∀ c, c < 4 →
          out.data.getD (((2 : Int) * wImage1.width + 2).toNat * 4 + c) 0 =
            wImage1.data.getD (((2 : Int) * wImage1.width + 2).toNat * 4 + c) 0)) :=
  blur_inside_region_mean wImage1 wRegion1 2 2 (by decide) (by decide) (by decide)

/-- C8: the blur allocates a fresh output of identical dimensions and
never reads partially-written data: every output channel slot is a function
of the original source buffer alone (`blurredAt img.data …` for in-region
slots, the untouched source sample elsewhere), and the result is invariant
under any permutation of the pixel iteration order.  Source buffers are
immutable values of this embedding, so the input `img` itself is untouched
by construction; both processor paths return the same fresh buffer. -/
theorem blur_fresh_buffer_reads_source (img : ImageData) (r : Region)
    (hval : invalidRegion r img.width img.height = false)
    (hlen : img.data.length = img.width * img.height * 4) :
    ∃ out, removeWatermark img r = Except.ok out ∧ blurWatermark img r = out ∧
      out.width = img.width ∧ out.height = img.height ∧
      out.data.length = img.data.length ∧
      (∀ i, i < img.width * img.height * 4 →
        out.data.getD i 0 =
          if regContains r ((i / 4 % img.width : Nat) : Int)
            ((i / 4 / img.width : Nat) : Int)
          then blurredAt img.data (calculateBlurRadius r.width r.height)
            img.width img.height ((i / 4 % img.width : Nat) : Int)
            ((i / 4 / img.width : Nat) : Int) (i % 4)
          else img.data.getD i 0) ∧
      (∀ L : List (Int × Int), L.Perm (regionPixels r) →
        ∀ i, i < img.width * img.height * 4 →
        (L.foldl (writePixel img.data (calculateBlurRadius r.width r.height)
          img.width img.height) img.data).getD i 0 = out.data.getD i 0) := by
  refine ⟨⟨img.width, img.height, applyBlurEffect img.data img.data r
      (calculateBlurRadius r.width r.height) img.width img.height⟩, ?_, ?_, rfl, rfl, ?_,
      ?_, ?_⟩
  · simp [removeWatermark, hval]
  · simp [blurWatermark, hval]
  · show (applyBlurEffect img.data img.data r
      (calculateBlurRadius r.width r.height) img.width img.height).length = img.data.length
    unfold applyBlurEffect
    rw [foldl_writePixel_length]
  · intro i hi
    exact applyBlurEffect_getD img.data img.data r _ img.width img.height hval hlen i hi
  · intro L hperm i hi
    have memL : ∀ p ∈ L, pixelIn img.width img.height p :=
      fun p hp => regionPixels_pixelIn hval p (hperm.mem_iff.mp hp)
    have ndL : L.Nodup := (hperm.nodup_iff).mpr (nodup_regionPixels r)
    rw [foldl_writePixel_char img.data _ img.width img.height L img.data memL ndL hlen i hi]
    show _ = (applyBlurEffect img.data img.data r
      (calculateBlurRadius r.width r.height) img.width img.height).getD i 0
    unfold applyBlurEffect
    rw [foldl_writePixel_char img.data _ img.width img.height (regionPixels r) img.data
      (regionPixels_pixelIn hval) (nodup_regionPixels r) hlen i hi]
    by_cases hm : (((i / 4 % img.width : Nat) : Int), ((i / 4 / img.width : Nat) : Int)) ∈
        regionPixels r
    · rw [if_pos (hperm.mem_iff.mpr hm), if_pos hm]
    · rw [if_neg (fun hl => hm (hperm.mem_iff.mp hl)), if_neg hm]

/-- Witness for C8 at a concrete 3×3 image with a full-frame region. -/
theorem blur_fresh_buffer_reads_source_witness :
    ∃ out, removeWatermark wImage8 wRegion8 = Except.ok out ∧
      blurWatermark wImage8 wRegion8 = out ∧
      out.width = wImage8.width ∧ out.height = wImage8.height ∧
      out.data.length = wImage8.data.length ∧
      (∀ i, i < wImage8.width * wImage8.height * 4 →
        out.data.getD i 0 =
          if regContains wRegion8 ((i / 4 % wImage8.width : Nat) : Int)
            ((i / 4 / wImage8.width : Nat) : Int)
          then blurredAt wImage8.data
            (calculateBlurRadius wRegion8.width wRegion8.height)
            wImage8.width wImage8.height ((i / 4 % wImage8.width : Nat) : Int)
            ((i / 4 / wImage8.width : Nat) : Int) (i % 4)
          else wImage8.data.getD i 0) ∧
      (∀ L : List (Int × Int), L.Perm (regionPixels wRegion8) →
        ∀ i, i < wImage8.width * wImage8.height * 4 →
        (L.foldl (writePixel wImage8.data
          (calculateBlurRadius wRegion8.width wRegion8.height)
          wImage8.width wImage8.height) wImage8.data).getD i 0 = out.data.getD i 0) :=
  blur_fresh_buffer_reads_source wImage8 wRegion8 (by decide) (by decide)

/-- C4: a buffer of uniform color is a fixed point of the blur for any
valid region: averaging identical byte values and copying the alpha both
reproduce the source sample at every channel slot. -/
theorem uniform_color_fixed_point (img : ImageData) (r : Region) (color : Nat → Nat)
    (hval : invalidRegion r img.width img.height = false)
    (hlen : img.data.length = img.width * img.height * 4)
    (hcolor : ∀ c, c < 3 → color c ≤ 255)
    (huniform : ∀ i, i < img.width * img.height * 4 →
      img.data.getD i 0 = color (i % 4)) :
    ∃ out, removeWatermark img r = Except.ok out ∧
      ∀ i, i < img.width * img.height * 4 →
        out.data.getD i 0 = img.data.getD i 0 := by
  refine ⟨⟨img.width, img.height, applyBlurEffect img.data img.data r
      (calculateBlurRadius r.width r.height) img.width img.height⟩, ?_, ?_⟩
  · simp [removeWatermark, hval]
  intro i hi
  show (applyBlurEffect img.data img.data r
    (calculateBlurRadius r.width r.height) img.width img.height).getD i 0 =
    img.data.getD i 0
  rw [applyBlurEffect_getD img.data img.data r _ img.width img.height hval hlen i hi]
  by_cases hreg : regContains r ((i / 4 % img.width : Nat) : Int)
      ((i / 4 / img.width : Nat) : Int)
  · rw [if_pos hreg]
    have hT : ((((i / 4 / img.width : Nat) : Int)) * (img.width : Int) +
        ((i / 4 % img.width : Nat) : Int)).toNat = i / 4 :=
      toNat_pix_cast img.width (i / 4)
    simp only [blurredAt]
    by_cases hcnt : 0 < (sampleBases img.width img.height
        (calculateBlurRadius r.width r.height) ((i / 4 % img.width : Nat) : Int)
        ((i / 4 / img.width : Nat) : Int)).length
    · rw [if_pos hcnt]
      by_cases hc3 : i % 4 = 3
      · rw [if_pos hc3, show ((((i / 4 / img.width : Nat) : Int)) * (img.width : Int) +
          ((i / 4 % img.width : Nat) : Int)).toNat * 4 + 3 = i from by omega]
      · rw [if_neg hc3]
        have hsum : channelSum img.data
            (sampleBases img.width img.height (calculateBlurRadius r.width r.height)
              ((i / 4 % img.width : Nat) : Int) ((i / 4 / img.width : Nat) : Int)) (i % 4) =
            (sampleBases img.width img.height (calculateBlurRadius r.width r.height)
              ((i / 4 % img.width : Nat) : Int)
              ((i / 4 / img.width : Nat) : Int)).length * color (i % 4) := by
          unfold channelSum
          apply sum_const_list
          intro b hb
          obtain ⟨s, hs, rfl⟩ := sampleBases_mem hb
          have hs4 : s * 4 + i % 4 < img.width * img.height * 4 := by
            have h4 : i % 4 < 4 := by omega
            generalize hM : img.width * img.height = M at hs ⊢
            omega
          rw [huniform (s * 4 + i % 4) hs4]
          congr 1
          omega
        rw [hsum, storeByte_const hcnt (hcolor _ (by omega)), huniform i hi]
    · rw [if_neg hcnt, show ((((i / 4 / img.width : Nat) : Int)) * (img.width : Int) +
        ((i / 4 % img.width : Nat) : Int)).toNat * 4 + i % 4 = i from by omega]
  · rw [if_neg hreg]

/-- Witness for C4: the 100×100 buffer of uniform color `(200,100,50,255)`
with region `{x:20, y:20, width:30, height:30}`. -/
theorem uniform_color_fixed_point_witness :
    ∃ out, removeWatermark uniformImage uniformRegion = Except.ok out ∧
      ∀ i, i < uniformImage.width * uniformImage.height * 4 →
        out.data.getD i 0 = uniformImage.data.getD i 0 :=
  uniform_color_fixed_point uniformImage uniformRegion uniformColor
    (by decide)
    (by
      show ((List.replicate (100 * 100) [200, 100, 50, 255]).flatten).length =
        100 * 100 * 4
      rw [List.length_flatten, List.map_replicate, List.sum_replicate]
      rfl)
    (by decide)
    (by
      intro i hi
      show ((List.replicate (100 * 100) [200, 100, 50, 255]).flatten).getD i 0 =
        uniformColor (i % 4)
      rw [flatten_replicate_getD (100 * 100) i [200, 100, 50, 255] rfl
        (by simpa using hi)]
      rcases (show i % 4 = 0 ∨ i % 4 = 1 ∨ i % 4 = 2 ∨ i % 4 = 3 by omega)
        with h | h | h | h <;> rw [h] <;> rfl)

/-- C6: once the sampling parameters are valid, the pipeline's output is
exactly the blurred successfully-extracted frames, in their original sample
order (failures are skipped, not fatal), and it fails with the
no-frames-processed error precisely when every extraction failed. -/
theorem processVideo_skips_failed_frames (v : VideoElement) (r : Region)
    (e : ℚ → Except String ImageData) (total : Int)
    (htotal : totalFramesToProcess v = some total) (hpos : 0 < total)
    (hw : v.videoWidth ≠ 0) (hh : v.videoHeight ≠ 0) :
    processVideo v r e =
      (if ((List.range total.toNat).filterMap (fun (i : Nat) =>
          match e ((i : ℚ) / processingFrameRate v) with
          | Except.ok frameData => some (blurWatermark frameData r)
          | Except.error _ => none)) = []
       then Except.error "No frames were processed. Video processing failed."
       else Except.ok ((List.range total.toNat).filterMap (fun (i : Nat) =>
          match e ((i : ℚ) / processingFrameRate v) with
          | Except.ok frameData => some (blurWatermark frameData r)
          | Except.error _ => none))) := by
  simp only [processVideo, htotal]
  rw [if_neg (by omega : ¬ total ≤ 0), if_neg (by simp [hw, hh])]
  rw [foldl_collect_filterMap e r (processingFrameRate v) (List.range total.toNat) []]
  simp only [List.nil_append, List.isEmpty_iff]

/-- Witness for C6: ten samples with extraction failing only at index 5
leaves exactly nine blurred frames, in order, and is not fatal. -/
theorem processVideo_skips_failed_frames_witness :
    processVideo demoVideo demoRegion demoFrameSource =
      Except.ok (List.replicate 9 (blurWatermark demoFrame demoRegion)) := by
  have hrate : processingFrameRate demoVideo = 1 := by
    norm_num [processingFrameRate, demoVideo]
  have htotal : totalFramesToProcess demoVideo = some 10 := by
    norm_num [totalFramesToProcess, demoVideo, processingFrameRate]
  rw [processVideo_skips_failed_frames demoVideo demoRegion demoFrameSource 10 htotal
    (by norm_num) (by decide) (by decide)]
  rw [hrate]
  rw [show (10 : Int).toNat = 10 from rfl,
    show List.range 10 = [0, 1, 2, 3, 4, 5, 6, 7, 8, 9] from rfl]
  simp only [List.filterMap_cons, List.filterMap_nil, demoFrameSource]
  norm_num
  decide

/-- C7: the pipeline derives its sample count as `floor(duration × rate)`
with the rate capped at 30; a missing (non-finite) count or a non-positive
count fails immediately with the invalid-source error, for every frame
source alike (no frame is requested); and on a valid count the outcome
depends on the frame source only through its answers at the timestamps
`i / rate` for `i < count`. -/
theorem processVideo_invalid_source :
    (∀ (v : VideoElement) (r : Region) (e : ℚ → Except String ImageData),
        totalFramesToProcess v = none →
        processVideo v r e =
          Except.error "Invalid video duration or frame rate, cannot process.") ∧
    (∀ (v : VideoElement) (r : Region) (e : ℚ → Except String ImageData) (total : Int),
        totalFramesToProcess v = some total → total ≤ 0 →
        processVideo v r e =
          Except.error "Invalid video duration or frame rate, cannot process.") ∧
    (∀ v : VideoElement, processingFrameRate v ≤ 30) ∧
    (∀ (v : VideoElement) (d : ℚ), v.duration = some d →
        totalFramesToProcess v = some ⌊d * processingFrameRate v⌋) ∧
    (∀ (v : VideoElement) (r : Region) (e1 e2 : ℚ → Except String ImageData)
        (total : Int), totalFramesToProcess v = some total →
        (∀ i : Nat, i < total.toNat →
          e1 ((i : ℚ) / processingFrameRate v) = e2 ((i : ℚ) / processingFrameRate v)) →
        processVideo v r e1 = processVideo v r e2) := by
  refine ⟨?_, ?_, ?_, ?_, ?_⟩
  · intro v r e h
    simp only [processVideo, h]
  · intro v r e total h hle
    simp only [processVideo, h]
    rw [if_pos hle]
  · intro v
    exact min_le_left _ _
  · intro v d h
    simp [totalFramesToProcess, h]
  · intro v r e1 e2 total h hag
    simp only [processVideo, h]
    by_cases hle : total ≤ 0
    · rw [if_pos hle, if_pos hle]
    · rw [if_neg hle, if_neg hle]
      by_cases hdim : v.videoWidth = 0 ∨ v.videoHeight = 0
      · rw [if_pos hdim, if_pos hdim]
      · rw [if_neg hdim, if_neg hdim]
        have hfold : (List.range total.toNat).foldl (fun acc (i : Nat) =>
            match e1 ((i : ℚ) / processingFrameRate v) with
            | Except.ok frameData => acc ++ [blurWatermark frameData r]
            | Except.error _ => acc) [] =
          (List.range total.toNat).foldl (fun acc (i : Nat) =>
            match e2 ((i : ℚ) / processingFrameRate v) with
            | Except.ok frameData => acc ++ [blurWatermark frameData r]
            | Except.error _ => acc) [] := by
          apply List.foldl_ext
          intro acc b hb
          rw [List.mem_range] at hb
          rw [hag b hb]
        rw [hfold]

/-- Witness for C7: a non-finite-duration source and a zero-duration
source both fail with the invalid-source error before any extraction. -/
theorem processVideo_invalid_source_witness :
    processVideo nonfiniteVideo demoRegion okFrameSource =
        Except.error "Invalid video duration or frame rate, cannot process." ∧
      processVideo zeroDurationVideo demoRegion okFrameSource =
        Except.error "Invalid video duration or frame rate, cannot process." :=
  ⟨processVideo_invalid_source.1 nonfiniteVideo demoRegion okFrameSource rfl,
   processVideo_invalid_source.2.1 zeroDurationVideo demoRegion okFrameSource 0
     (by norm_num [totalFramesToProcess, zeroDurationVideo]) (by norm_num)⟩

end WatermarkRemover
